import Mathlib

/-!
# WebTerm server: verification of the session protocol and lifecycle engine

A shallow embedding of the WebTerm server's core logic, translated from the
TypeScript sources:

* `src/server/auth.ts` — token service (`AuthService.validateToken`);
* `src/server/websocket-handler.ts` — rate limiting, frame decoding, message
  routing, upload sandboxing, output coalescing, heartbeat supervision;
* the pty manager (`PTYManager.spawn` / `kill` / `isAlive`).

External collaborators (Node stdlib and the OS) are modelled explicitly:

* `crypto.createHmac` is abstracted as a function argument `hmac`;
* `Date.now()` and message arrival times are `Int` millisecond arguments;
* `path.basename` / `path.resolve` (POSIX) are modelled character-exactly
  (`nodeBasename`, `posixResolve`);
* `JSON.parse` is abstracted as a function argument; a concrete fragment
  sufficient for upload headers is `jsonParseFilenameHeader`;
* the pty library, the file system and the WebSocket transport are modelled by
  an explicit `Effect` trace (a call to `fs.writeFileSync`, `ws.send`,
  `ws.close`, `ws.terminate`, `ws.ping`, pty spawn/kill/write/resize is one
  trace element); asynchronous callbacks (timers, ticks, pongs) are events of
  explicit small-step relations.

All definitions are executable, so every theorem can be checked on concrete
inputs by `decide`.
-/

namespace WebTerm

/-! ## Character-level string utilities

JS `String.prototype.split(sep)` for a one-character separator, modelled by
structural recursion over the character list. -/

/-- Split a character list on a separator character; JS
`"a:b".split(":")` semantics: `n` separators yield `n + 1` fields. -/
def splitCharList (sep : Char) : List Char → List (List Char)
  | [] => [[]]
  | c :: rest =>
    if c == sep then [] :: splitCharList sep rest
    else
      match splitCharList sep rest with
      | [] => [[c]]
      | s :: ss => (c :: s) :: ss

/-- JS `s.split(sep)` for a single-character separator. -/
def jsSplit (sep : Char) (s : String) : List String :=
  (splitCharList sep s.data).map String.mk

/-- JS `s.startsWith(pre)`: `pre` is a prefix of `s`. -/
def jsStartsWith (s pre : String) : Bool :=
  pre.data.isPrefixOf s.data

/-! ## Token service (`src/server/auth.ts`) -/

/-- JS `parseInt(s, 10)`: skip leading whitespace, an optional sign, then read
the longest leading run of decimal digits; `none` models the `NaN` result
(no digits at all). -/
def jsParseInt10 (s : String) : Option Int :=
  let cs := s.data.dropWhile (fun c => c == ' ' || c == '\t' || c == '\n' || c == '\r')
  let signAndRest : Int × List Char :=
    match cs with
    | '-' :: rest => (-1, rest)
    | '+' :: rest => (1, rest)
    | _ => (1, cs)
  let digits := signAndRest.2.takeWhile Char.isDigit
  if digits.isEmpty then none
  else some (signAndRest.1 * ((digits.foldl (fun acc c => 10 * acc + (c.toNat - 48)) 0 : Nat) : Int))

/-- JS `now > x` where `x` may be `NaN` (modelled as `none`): every comparison
with `NaN` is false. -/
def jsGtNaN (now : Int) (x : Option Int) : Bool :=
  match x with
  | none => false
  | some v => now > v

/-- Model of `AuthService.validateToken` (`src/server/auth.ts` lines 42-68): split on
`:` into exactly three fields, recompute the signature over
`timestamp ++ ":" ++ expiresAt`, compare with exact equality, then fail if
`Date.now() > parseInt(expiresAt, 10)`.  `hmac` abstracts
`createSignature` (HMAC-SHA256 under the process secret, whose hex digest
never contains `:`); `now` abstracts `Date.now()`.  The surrounding
`try`/`catch` returns `false` on any thrown error; the model is total, so
the catch arm is unreachable. -/
def validateToken (hmac : String → String) (now : Int) (token : String) : Bool :=
  match jsSplit ':' token with
  | [timestamp, expiresAt, signature] =>
    let payload := timestamp ++ ":" ++ expiresAt
    if signature != hmac payload then false
    else if jsGtNaN now (jsParseInt10 expiresAt) then false
    else true
  | _ => false

/-! ## POSIX path model (Node `path.basename` / `path.resolve`)

`handleFileUpload` sandboxes uploads with
`path.resolve(process.cwd(), path.basename(filename))` followed by a string
`startsWith` check.  Node's POSIX implementations are modelled
character-exactly below. -/

/-- Node `path.posix.basename(p)` (no suffix argument): drop trailing `/`
characters, then take everything after the last remaining `/`.  Returns `""`
when the input consists only of separators (or is empty). -/
def nodeBasename (p : String) : String :=
  String.mk (((p.data.reverse.dropWhile (fun c => c == '/')).takeWhile (fun c => c != '/')).reverse)

/-- Join path segments with `/` separators (no leading slash). -/
def joinSegs : List (List Char) → List Char
  | [] => []
  | [s] => s
  | s :: rest => s ++ '/' :: joinSegs rest

/-- Characters of the absolute path `/s1/s2/...`; `[]` yields `"/"`. -/
def pathChars (segs : List (List Char)) : List Char :=
  '/' :: joinSegs segs

/-- The absolute path string with the given segments. -/
def pathOfSegs (segs : List String) : String :=
  String.mk (pathChars (segs.map String.data))

/-- One step of Node's `normalizeString`: skip empty and `.` segments, pop on
`..` (which above the root is dropped), push anything else. -/
def normStep (stack : List (List Char)) (seg : List Char) : List (List Char) :=
  if seg = [] ∨ seg = ['.'] then stack
  else if seg = ['.', '.'] then stack.dropLast
  else stack ++ [seg]

/-- Node `path.posix.resolve(cwd, p)` for an absolute `cwd`: if `p` is not
absolute prepend `cwd ++ "/"`, then normalize by splitting on `/` and
resolving `.`/`..` segments left to right. -/
def posixResolve (cwd p : String) : String :=
  let full := if p.data.head? = some '/' then p.data else cwd.data ++ '/' :: p.data
  String.mk (pathChars ((splitCharList '/' full).foldl normStep []))

/-- A well-formed segment of a normalized absolute working directory, as
returned by `process.cwd()`: nonempty, not `.` or `..`, and free of `/`. -/
def goodSeg (s : String) : Prop :=
  s ≠ "" ∧ s ≠ "." ∧ s ≠ ".." ∧ '/' ∉ s.data

/-! ## Pty manager (`PTYManager`) -/

/-- The pty manager's state: `ptyProcess` is the spawned process handle
(`null` modelled as `none`, otherwise the process id). -/
structure PTYManager where
  ptyProcess : Option Nat
deriving DecidableEq, Repr

/-- Messages of the wire protocol (`src/shared/types.ts` `MessageType` and the
`TerminalMessage` union), restricted to the fields the server reads. -/
inductive TerminalMessage where
  | auth (token : String)
  | input (data : String)
  | resize (cols rows : Nat)
  | fileUpload (filename : String) (data : List Nat) (size : Nat)
  | fileDownload (filename : String)
  | output (data : String)
  | error (message : String)
  | ready (shellType cwd : String)
deriving DecidableEq, Repr

/-- One observable call to an external collaborator (transport, pty library,
file system).  A handler's run is summarized by its list of effects in
program order. -/
inductive Effect where
  /-- Call `ws.send(JSON.stringify(message))` (via the handler's `send`). -/
  | send (m : TerminalMessage)
  /-- Call `ws.close()`. -/
  | wsClose
  /-- Call `ws.terminate()`. -/
  | wsTerminate
  /-- Call `ws.ping()`. -/
  | ping
  /-- Call `pty.spawn(shell, ...)` succeeded, yielding the process `pid`. -/
  | spawned (pid : Nat)
  /-- Call `this.ptyProcess.write(data)`. -/
  | ptyWrite (data : String)
  /-- Call `this.ptyProcess.resize(cols, rows)`. -/
  | ptyResizeCall (cols rows : Nat)
  /-- Call `fs.writeFileSync(path, buffer)` invoked with target `path`. -/
  | fileWrite (path : String)
  /-- Call `session.pty.kill()` invoked (the method call itself). -/
  | ptyKillCall
  /-- Call `this.ptyProcess.kill(signal)` delivered to process `pid`. -/
  | killSignal (pid : Nat)
deriving DecidableEq, Repr

/-- Model of `PTYManager.spawn` (pty-manager source, lines 82-120): unconditionally
replaces `this.ptyProcess` with a freshly spawned process.  The fresh `pid`
is supplied by the environment; a `spawn` that throws is modelled at the call
site (`handleAuth`) by not invoking this function. -/
def PTYManager.spawn (pid : Nat) (_m : PTYManager) : PTYManager × List Effect :=
  (⟨some pid⟩, [.spawned pid])

/-- Model of `PTYManager.kill` (pty-manager source, lines 173-183): if no process is
present, do nothing; otherwise call `kill` on it and clear the reference.
`killOk = false` models `this.ptyProcess.kill` throwing, in which case the
error is caught and logged and the reference is left in place. -/
def PTYManager.kill (killOk : Bool) (m : PTYManager) : PTYManager × List Effect :=
  match m.ptyProcess with
  | none => (m, [])
  | some pid => if killOk then (⟨none⟩, [.killSignal pid]) else (m, [])

/-- Model of `PTYManager.isAlive` (pty-manager source, lines 195-197):
`this.ptyProcess !== null`. -/
def PTYManager.isAlive (m : PTYManager) : Bool :=
  m.ptyProcess.isSome

/-! ## Session state and environment (`src/server/websocket-handler.ts`) -/

/-- The `SessionState` record of `websocket-handler.ts` (lines 13-19). -/
structure SessionState where
  pty : PTYManager
  authenticated : Bool
  messageCount : Nat
  lastMinute : Int
  isAlive : Bool
deriving DecidableEq, Repr

/-- The handler's configuration together with the external collaborators a
single handler invocation may consult: the text-frame JSON decoder, the
upload-header JSON decoder, the outcome of `pty.spawn` (`none` = it throws),
the server's working directory `process.cwd()`, whether `fs.writeFileSync`
succeeds, and whether `ptyProcess.kill` succeeds. -/
structure Env where
  rateLimit : Nat
  maxMessageSize : Nat
  parseText : String → Option TerminalMessage
  parseHeader : String → Option String
  spawnResult : Option Nat
  cwd : String
  writeOk : Bool
  killOk : Bool

/-- Value of `os.homedir()` for the server process. -/
def osHomedir : String := "/root"

/-- Model of `handleAuth` (lines 143-191): mark the session authenticated, then try to
spawn the shell.  On success send READY (`getProcess()?.shellType` is always
`undefined` on an `IPty`, so the shell type sent is always `"sh"`); on a
spawn error send ERROR and close the socket.  The `token` parameter is
received but never read.  The `onData`/`onExit` callbacks registered here are
modelled by the standalone coalescer (`coOnData`) and the heartbeat/close
machinery. -/
def handleAuth (env : Env) (s : SessionState) (_token : String) : SessionState × List Effect :=
  let s := { s with authenticated := true }
  match env.spawnResult with
  | some pid =>
    let (pty', spawnEffs) := s.pty.spawn pid
    ({ s with pty := pty' }, spawnEffs ++ [.send (.ready "sh" osHomedir)])
  | none => (s, [.send (.error "Failed to spawn shell"), .wsClose])

/-- Model of `handleInput` (lines 193-197): `session.pty.write(data)`; the `write`
throws when no pty is spawned, and the catch arm ignores it. -/
def handleInput (s : SessionState) (data : String) : SessionState × List Effect :=
  match s.pty.ptyProcess with
  | some _ => (s, [.ptyWrite data])
  | none => (s, [])

/-- Model of `handleResize` (lines 199-203): `session.pty.resize(cols, rows)`; throws
without a pty, caught and ignored. -/
def handleResize (s : SessionState) (cols rows : Nat) : SessionState × List Effect :=
  match s.pty.ptyProcess with
  | some _ => (s, [.ptyResizeCall cols rows])
  | none => (s, [])

/-- Model of `handleFileUpload` (lines 205-228): resolve
`path.resolve(process.cwd(), path.basename(filename))`, reject with ERROR if
the result does not start with the cwd, otherwise write the file and send a
success OUTPUT.  `env.writeOk = false` models `fs.writeFileSync` throwing
(caught: ERROR `Upload failed`); the `Effect.fileWrite` records the write
call's target path in both cases. -/
def handleFileUpload (env : Env) (s : SessionState) (filename : String) (_data : List Nat) :
    SessionState × List Effect :=
  let cwd := env.cwd
  let safePath := posixResolve cwd (nodeBasename filename)
  if ¬ jsStartsWith safePath cwd then
    (s, [.send (.error "Invalid path")])
  else if env.writeOk then
    (s, [.fileWrite safePath,
         .send (.output ("\r\n✅ Upload complete: " ++ filename ++ "\r\n"))])
  else
    (s, [.fileWrite safePath, .send (.error "Upload failed")])

/-- Model of `routeMessage` (lines 126-141): AUTH is always acted on; INPUT, RESIZE and
FILE_UPLOAD only when `session.authenticated`; every other type falls through
the `switch` with no effect. -/
def routeMessage (env : Env) (s : SessionState) (m : TerminalMessage) : SessionState × List Effect :=
  match m with
  | .auth token => handleAuth env s token
  | .input data => if s.authenticated then handleInput s data else (s, [])
  | .resize cols rows => if s.authenticated then handleResize s cols rows else (s, [])
  | .fileUpload filename data _size =>
    if s.authenticated then handleFileUpload env s filename data else (s, [])
  | _ => (s, [])

/-! ## Frame decoding (`handleMessage`, lines 98-117) -/

/-- An inbound WebSocket frame: text (JSON control message) or binary
(file-upload framing), as distinguished by `isBinary`. -/
inductive RawFrame where
  | text (s : String)
  | binary (bytes : List Nat)
deriving DecidableEq, Repr, Inhabited

/-- The size used by the handler's size check: `data.length` (bytes of the
frame; for text frames the character count of the JSON string). -/
def frameSize : RawFrame → Nat
  | .text s => s.length
  | .binary bs => bs.length

/-- Model of `buffer.readUInt32BE(0)`; callers guard `4 ≤ bs.length` (a shorter buffer
makes `readUInt32BE` throw, landing in the handler's catch arm). -/
def readUInt32BE (bs : List Nat) : Nat :=
  bs[0]! * 16777216 + bs[1]! * 65536 + bs[2]! * 256 + bs[3]!

/-- Model of `buffer.toString('utf-8')` restricted to ASCII bytes (the upload header is
ASCII JSON; non-ASCII bytes would only change which headers parse). -/
def asciiDecode (bs : List Nat) : String :=
  String.mk (bs.map Char.ofNat)

/-- The decoded binary upload frame: the header's `filename`, the remaining
bytes and their count (`size: fileData.length`). -/
structure FileUploadDecoded where
  filename : String
  data : List Nat
  size : Nat
deriving DecidableEq, Repr

/-- The binary branch of `handleMessage` (lines 101-113): read the 4-byte
big-endian header length, slice the header with `subarray` (which clamps both
ends to the buffer, never throwing), `JSON.parse` it (abstracted by `parse`,
returning the header's `filename`; `none` = parse throws), and take the rest
as file data.  `Except.error` is the catch arm's `Invalid message protocol`
ERROR. -/
def decodeBinaryFrame (parse : String → Option String) (bytes : List Nat) :
    Except String FileUploadDecoded :=
  if bytes.length < 4 then .error "Invalid message protocol"
  else
    let headerLength := readUInt32BE bytes
    let headerJson := asciiDecode ((bytes.drop 4).take headerLength)
    match parse headerJson with
    | none => .error "Invalid message protocol"
    | some filename =>
      let fileData := bytes.drop (4 + headerLength)
      .ok ⟨filename, fileData, fileData.length⟩

/-- The `try` block of `handleMessage`: binary frames through the upload
framing, text frames through `JSON.parse` (abstracted by `env.parseText`). -/
def decodeFrame (env : Env) (frame : RawFrame) : Except String TerminalMessage :=
  match frame with
  | .binary bytes =>
    (decodeBinaryFrame env.parseHeader bytes).map
      (fun m => .fileUpload m.filename m.data m.size)
  | .text s =>
    match env.parseText s with
    | some m => .ok m
    | none => .error "Invalid message protocol"

/-- Tail of `handleMessage` after the rate-limiting block (lines 91-123): the size
check, then decode and route; any decode error sends
`Invalid message protocol`. -/
def processAfterRate (env : Env) (s : SessionState) (frame : RawFrame) :
    SessionState × List Effect :=
  if frameSize frame > env.maxMessageSize then
    (s, [.send (.error "Message too large")])
  else
    match decodeFrame env frame with
    | .error _ => (s, [.send (.error "Invalid message protocol")])
    | .ok m => routeMessage env s m

/-- Model of `handleMessage` (lines 73-124): reset the window when at least one full
minute (`Math.floor((now - lastMinute) / 60000) > 0`) has passed, increment
the counter, drop the message with a rate ERROR when the counter exceeds
`rateLimit`, otherwise continue with the size check and decoding. -/
def handleMessage (env : Env) (now : Int) (s : SessionState) (frame : RawFrame) :
    SessionState × List Effect :=
  let minutesPassed := (now - s.lastMinute).fdiv 60000
  let s := if minutesPassed > 0 then { s with messageCount := 0, lastMinute := now } else s
  let s := { s with messageCount := s.messageCount + 1 }
  if s.messageCount > env.rateLimit then
    (s, [.send (.error "Rate limit exceeded")])
  else
    processAfterRate env s frame

/-- Deliver a sequence of timestamped frames to one session, collecting each
message's effect list. -/
def runHandle (env : Env) (s : SessionState) : List (Int × RawFrame) → SessionState × List (List Effect)
  | [] => (s, [])
  | (now, f) :: rest =>
    let (s', effs) := handleMessage env now s f
    let (sN, effsN) := runHandle env s' rest
    (sN, effs :: effsN)

/-! ## Output coalescer (`handleAuth`'s `onData` closure, lines 150-172) -/

/-- The coalescer's closure state: `outputBuffer`, whether a delayed `flush`
is scheduled (`flushTimeout !== null`), and the OUTPUT payloads sent so far. -/
structure CoState where
  outputBuffer : String
  flushScheduled : Bool
  sent : List String
deriving DecidableEq, Repr

/-- The closure's `flush` (lines 153-159): send the buffer as one OUTPUT if
nonempty, clear it, and clear `flushTimeout`. -/
def coFlush (st : CoState) : CoState :=
  if st.outputBuffer.length > 0 then
    { outputBuffer := "", flushScheduled := false, sent := st.sent ++ [st.outputBuffer] }
  else
    { st with flushScheduled := false }

/-- The `onData` callback (lines 161-172): append, flush immediately (after
cancelling a pending timer) when the buffer exceeds 8192 characters,
otherwise schedule a 5 ms flush if none is pending. -/
def coOnData (st : CoState) (data : String) : CoState :=
  let buf := st.outputBuffer ++ data
  if buf.length > 8192 then
    coFlush { st with outputBuffer := buf, flushScheduled := false }
  else if !st.flushScheduled then
    { st with outputBuffer := buf, flushScheduled := true }
  else
    { st with outputBuffer := buf }

/-- The scheduled timer firing after 5 ms: it runs `flush`. -/
def coTimerFire (st : CoState) : CoState :=
  coFlush st

/-- Coalescer events: a chunk of shell output arriving, or the 5 ms timer
firing.  A burst of writes within 5 ms is a `data*` sequence followed by one
`timer`. -/
inductive CoEvent where
  | data (s : String)
  | timer
deriving DecidableEq, Repr

/-- Run the coalescer over an event sequence. -/
def runCo (st : CoState) : List CoEvent → CoState
  | [] => st
  | .data s :: rest => runCo (coOnData st s) rest
  | .timer :: rest => runCo (coTimerFire st) rest

/-- The closure's initial state: empty buffer, no timer pending. -/
def coInit : CoState :=
  { outputBuffer := "", flushScheduled := false, sent := [] }

/-- JS string concatenation of a list, in order (`sum` of `+=`). -/
def concatAll (ss : List String) : String :=
  ss.foldl (fun a b => a ++ b) ""

/-! ## Heartbeat supervisor and close path (constructor lines 32-41,
`handleClose` lines 240-247) -/

/-- Model of `handleClose`: if the socket still maps to a session, call
`session.pty.kill()` and delete the session from the registry.
`Effect.ptyKillCall` records the `kill()` invocation itself. -/
def handleClose (env : Env) : Option SessionState → Option SessionState × List Effect
  | some s =>
    let (_, killEffs) := s.pty.kill env.killOk
    (none, .ptyKillCall :: killEffs)
  | none => (none, [])

/-- One 30-second heartbeat tick for one session (constructor lines 32-41):
a session whose `isAlive` flag is false is terminated (`ws.terminate()`
destroys the socket, which fires the `close` event and hence `handleClose`);
otherwise the flag is cleared and a ping probe is sent. -/
def heartbeatTick (env : Env) : Option SessionState → Option SessionState × List Effect
  | none => (none, [])
  | some s =>
    if s.isAlive = false then
      let (rest, effs) := handleClose env (some s)
      (rest, .wsTerminate :: effs)
    else
      (some { s with isAlive := false }, [.ping])

/-- The `pong` listener (lines 60-63): mark the session alive. -/
def pongStep : Option SessionState → Option SessionState × List Effect
  | some s => (some { s with isAlive := true }, [])
  | none => (none, [])

/-- Heartbeat-relevant events between and at supervisor ticks. -/
inductive HbEvent where
  | tick
  | pong
deriving DecidableEq, Repr

/-- Run the heartbeat machinery over a sequence of ticks and pongs,
concatenating the effects. -/
def runHb (env : Env) (st : Option SessionState) : List HbEvent → Option SessionState × List Effect
  | [] => (st, [])
  | e :: rest =>
    let (st', effs) :=
      match e with
      | .tick => heartbeatTick env st
      | .pong => pongStep st
    let (stN, effsN) := runHb env st' rest
    (stN, effs ++ effsN)

/-! ## Concrete instances used by closed-form theorems -/

/-- Model of `JSON.parse` restricted to the exact upload-header shape
`x7b"filename":"<name>"x7d` with no escapes in the name — the fragment the
client emits; real `JSON.parse` agrees with it on these inputs. -/
def jsonParseFilenameHeader (s : String) : Option String :=
  let quote : Char := Char.ofNat 34
  let openBrace : Char := Char.ofNat 123
  let closeBrace : Char := Char.ofNat 125
  let pre : List Char := [openBrace, quote] ++ "filename".data ++ [quote, ':', quote]
  if pre.isPrefixOf s.data then
    let rest := s.data.drop pre.length
    let name := rest.takeWhile (fun c => !(c == quote || c == '\\'))
    if rest.drop name.length = [quote, closeBrace] then some (String.mk name) else none
  else none

/-- A plain environment for concrete evaluations: generous limits, default
working directory `/app`, all external calls succeeding, a stand-in signature
function, and the header parser above. -/
def envDemo : Env :=
  { rateLimit := 2000
    maxMessageSize := 20971520
    parseText := fun _ => none
    parseHeader := jsonParseFilenameHeader
    spawnResult := some 1
    cwd := "/app"
    writeOk := true
    killOk := true }

/-- A freshly connected session (`handleConnection` lines 51-57), already
authenticated, with window start 0. -/
def sessionAuthed : SessionState :=
  { pty := ⟨some 1⟩
    authenticated := true
    messageCount := 0
    lastMinute := 0
    isAlive := true }

/-- A freshly connected session, not yet authenticated. -/
def sessionFresh : SessionState :=
  { pty := ⟨none⟩
    authenticated := false
    messageCount := 0
    lastMinute := 0
    isAlive := true }

/-- A concrete binary frame whose stated header length (100) exceeds the
frame's total size (20 bytes): the four length bytes followed by the ASCII
codes of the 16-character JSON header naming filename `a`. -/
def frameOversized : List Nat :=
  [0, 0, 0, 100, 123, 34, 102, 105, 108, 101, 110, 97, 109, 101, 34, 58, 34, 97, 34, 125]


/-! ## Helper lemmas -/

theorem splitCharList_ne_nil (sep : Char) (l : List Char) : splitCharList sep l ≠ [] := by
  induction l with
  | nil => simp [splitCharList]
  | cons c rest ih =>
    by_cases hc : (c == sep) = true
    · simp [splitCharList, hc]
    · simp only [splitCharList, hc]
      rcases h : splitCharList sep rest with _ | ⟨s, ss⟩
      · exact absurd h ih
      · simp

theorem splitCharList_append (sep : Char) (a b : List Char) :
    splitCharList sep (a ++ sep :: b) = splitCharList sep a ++ splitCharList sep b := by
  induction a with
  | nil => simp [splitCharList]
  | cons c rest ih =>
    by_cases hc : (c == sep) = true
    · simp only [List.cons_append, splitCharList, hc, if_true, List.append_eq]
      rw [ih]
    · simp only [List.cons_append, splitCharList, hc, List.append_eq]
      rw [ih]
      rcases h : splitCharList sep rest with _ | ⟨s, ss⟩
      · exact absurd h (splitCharList_ne_nil sep rest)
      · simp

theorem splitCharList_no_sep (sep : Char) (l : List Char) (h : sep ∉ l) :
    splitCharList sep l = [l] := by
  induction l with
  | nil => simp [splitCharList]
  | cons c rest ih =>
    have hc : (c == sep) = false := by
      simp only [beq_eq_false_iff_ne, ne_eq]
      exact fun e => h (by simp [e])
    simp only [splitCharList, hc]
    rw [ih (fun hm => h (List.mem_cons_of_mem _ hm))]
    simp

theorem nodeBasename_no_slash (p : String) : '/' ∉ (nodeBasename p).data := by
  intro hmem
  have h1 : '/' ∈ (p.data.reverse.dropWhile (fun c => c == '/')).takeWhile (fun c => c != '/') :=
    List.mem_reverse.mp hmem
  have := List.mem_takeWhile_imp h1
  simp at this

theorem joinSegs_concat (l : List (List Char)) (x : List Char) (h : l ≠ []) :
    joinSegs (l ++ [x]) = joinSegs l ++ '/' :: x := by
  induction l with
  | nil => cases h rfl
  | cons a rest ih =>
    cases rest with
    | nil => simp [joinSegs]
    | cons b rrest =>
      have ih' := ih (by simp)
      rw [List.cons_append] at ih'
      simp only [List.cons_append, joinSegs, List.append_eq]
      rw [ih']
      simp

theorem splitSlash_joinSegs (segs : List (List Char))
    (h : ∀ seg ∈ segs, seg ≠ [] ∧ '/' ∉ seg) (hne : segs ≠ []) :
    splitCharList '/' (joinSegs segs) = segs := by
  induction segs with
  | nil => cases hne rfl
  | cons a rest ih =>
    cases rest with
    | nil =>
      simp only [joinSegs]
      exact splitCharList_no_sep '/' a (h a (by simp)).2
    | cons b rrest =>
      simp only [joinSegs]
      rw [splitCharList_append, splitCharList_no_sep '/' a (h a (by simp)).2,
        ih (fun s hs => h s (by simp [hs])) (by simp)]
      simp

theorem foldl_normStep_good (segs : List (List Char))
    (h : ∀ seg ∈ segs, seg ≠ [] ∧ seg ≠ ['.'] ∧ seg ≠ ['.', '.']) (acc : List (List Char)) :
    segs.foldl normStep acc = acc ++ segs := by
  induction segs generalizing acc with
  | nil => simp
  | cons a rest ih =>
    have ha := h a (by simp)
    simp only [List.foldl]
    rw [show normStep acc a = acc ++ [a] by simp [normStep, ha.1, ha.2.1, ha.2.2]]
    rw [ih (fun s hs => h s (by simp [hs])) (acc ++ [a])]
    simp

theorem posixResolve_basename (segs : List (List Char)) (bc : List Char)
    (hw : ∀ seg ∈ segs, seg ≠ [] ∧ seg ≠ ['.'] ∧ seg ≠ ['.', '.'] ∧ '/' ∉ seg)
    (hb : '/' ∉ bc) :
    posixResolve (String.mk (pathChars segs)) (String.mk bc) =
      String.mk (pathChars (normStep segs bc)) := by
  have hhead : bc.head? ≠ some '/' := by
    cases bc with
    | nil => simp
    | cons c cs =>
      simp only [List.head?_cons, ne_eq, Option.some.injEq]
      exact fun hcontra => hb (by simp [hcontra])
  have hfull : pathChars segs ++ '/' :: bc = '/' :: (joinSegs segs ++ '/' :: bc) := by
    simp [pathChars]
  simp only [posixResolve]
  rw [if_neg hhead]
  congr 2
  rw [hfull]
  have hsplit0 : splitCharList '/' ('/' :: (joinSegs segs ++ '/' :: bc)) =
      [] :: splitCharList '/' (joinSegs segs ++ '/' :: bc) := by
    simp [splitCharList]
  rw [hsplit0, splitCharList_append, splitCharList_no_sep '/' bc hb]
  cases segs with
  | nil =>
    simp only [joinSegs, splitCharList]
    simp [normStep]
  | cons a rest =>
    rw [splitSlash_joinSegs (a :: rest) (fun s hs => ⟨(hw s hs).1, (hw s hs).2.2.2⟩) (by simp)]
    have hgood : ∀ s ∈ a :: rest, s ≠ [] ∧ s ≠ ['.'] ∧ s ≠ ['.', '.'] :=
      fun s hs => ⟨(hw s hs).1, (hw s hs).2.1, (hw s hs).2.2.1⟩
    rw [List.foldl_cons, show normStep [] [] = [] by simp [normStep], List.foldl_append,
      foldl_normStep_good (a :: rest) hgood []]
    simp

theorem mkData (s : String) : String.mk s.data = s := rfl

theorem joinSegs_dropLast_length (segs : List (List Char))
    (h : ∀ seg ∈ segs, seg ≠ []) (hne : segs ≠ []) :
    (joinSegs segs.dropLast).length < (joinSegs segs).length := by
  rcases segs.eq_nil_or_concat' with rfl | ⟨L, x, rfl⟩
  · cases hne rfl
  · rw [List.dropLast_concat]
    cases L with
    | nil =>
      have hx : x ≠ [] := h x (by simp)
      simp only [joinSegs, List.nil_append]
      cases x with
      | nil => cases hx rfl
      | cons c cs => simp [joinSegs]
    | cons a rest =>
      rw [joinSegs_concat (a :: rest) x (by simp)]
      simp

theorem goodSeg_data {s : String} (h : goodSeg s) :
    s.data ≠ [] ∧ s.data ≠ ['.'] ∧ s.data ≠ ['.', '.'] ∧ '/' ∉ s.data := by
  obtain ⟨h1, h2, h3, h4⟩ := h
  refine ⟨fun he => h1 (String.ext he), fun he => h2 (String.ext he),
    fun he => h3 (String.ext he), h4⟩

theorem startsWith_self (s : String) : jsStartsWith s s = true := by
  simp [jsStartsWith, List.isPrefixOf_iff_prefix]

theorem startsWith_child (segsC : List (List Char)) (bc : List Char) :
    jsStartsWith (String.mk (pathChars (segsC ++ [bc]))) (String.mk (pathChars segsC)) = true := by
  simp only [jsStartsWith, List.isPrefixOf_iff_prefix]
  cases segsC with
  | nil =>
    simp [pathChars, joinSegs, List.cons_prefix_cons]
  | cons a rest =>
    rw [show pathChars ((a :: rest) ++ [bc]) = pathChars (a :: rest) ++ '/' :: bc by
      simp only [pathChars]
      rw [joinSegs_concat (a :: rest) bc (by simp)]
      simp]
    exact List.prefix_append _ _

theorem notStartsWith_parent (segsC : List (List Char))
    (hW : ∀ seg ∈ segsC, seg ≠ []) (hne : segsC ≠ []) :
    jsStartsWith (String.mk (pathChars segsC.dropLast)) (String.mk (pathChars segsC)) = false := by
  by_cases hpre : (pathChars segsC).isPrefixOf (pathChars segsC.dropLast) = true
  · exfalso
    have hlen := (List.isPrefixOf_iff_prefix.mp hpre).length_le
    have hlt := joinSegs_dropLast_length segsC hW hne
    simp [pathChars] at hlen
    omega
  · simp only [jsStartsWith]
    exact Bool.eq_false_iff.mpr hpre

theorem handleFileUpload_eq (env : Env) (s : SessionState) (filename : String)
    (fdata : List Nat) :
    handleFileUpload env s filename fdata =
      if ¬ jsStartsWith (posixResolve env.cwd (nodeBasename filename)) env.cwd then
        (s, [.send (.error "Invalid path")])
      else if env.writeOk then
        (s, [.fileWrite (posixResolve env.cwd (nodeBasename filename)),
             .send (.output ("\r\n✅ Upload complete: " ++ filename ++ "\r\n"))])
      else
        (s, [.fileWrite (posixResolve env.cwd (nodeBasename filename)),
             .send (.error "Upload failed")]) := rfl

theorem handleFileUpload_fst (env : Env) (s : SessionState) (f : String) (d : List Nat) :
    (handleFileUpload env s f d).1 = s := by
  simp only [handleFileUpload]
  split
  · rfl
  · split <;> rfl

theorem str_nil_append (s : String) : "" ++ s = s := by
  cases s
  rfl

theorem str_append_nil (s : String) : s ++ "" = s := by
  cases s with
  | mk l => show String.mk (l ++ []) = String.mk l; simp

theorem concatAll_cons (s : String) (ss : List String) :
    concatAll (s :: ss) = s ++ concatAll ss := by
  have key : ∀ (l : List String) (a b : String),
      l.foldl (fun x y => x ++ y) (a ++ b) = a ++ l.foldl (fun x y => x ++ y) b := by
    intro l
    induction l with
    | nil => intro a b; simp
    | cons c rest ih =>
      intro a b
      simp only [List.foldl_cons]
      rw [String.append_assoc, ih]
  unfold concatAll
  simp only [List.foldl_cons]
  rw [str_nil_append]
  conv_lhs => rw [← str_append_nil s]
  rw [key ss s ""]

theorem runCo_append (a b : List CoEvent) (st : CoState) :
    runCo st (a ++ b) = runCo (runCo st a) b := by
  induction a generalizing st with
  | nil => simp [runCo]
  | cons e rest ih =>
    cases e <;> simp [runCo, ih]

theorem runCo_burst (ss : List String) (st : CoState)
    (hsch : st.flushScheduled = true)
    (hlen : st.outputBuffer.length + (ss.map String.length).sum ≤ 8192) :
    runCo st (ss.map CoEvent.data) =
      { st with outputBuffer := st.outputBuffer ++ concatAll ss } := by
  induction ss generalizing st with
  | nil =>
    simp [runCo, concatAll, str_append_nil]
  | cons s rest ih =>
    simp only [List.map_cons, runCo]
    have hc : ¬ ((st.outputBuffer ++ s).length > 8192) := by
      simp only [String.length_append, gt_iff_lt, not_lt]
      simp only [List.map_cons, List.sum_cons] at hlen
      omega
    have hstep : coOnData st s = { st with outputBuffer := st.outputBuffer ++ s } := by
      simp only [coOnData]
      rw [if_neg hc, hsch]
      simp
    rw [hstep]
    rw [ih _ (by simp [hsch]) (by
      simp only [String.length_append]
      simp only [List.map_cons, List.sum_cons] at hlen
      omega)]
    simp [concatAll_cons, String.append_assoc]

theorem fdiv_window_zero {d : Int} (h0 : 0 ≤ d) (h1 : d < 60000) : d.fdiv 60000 = 0 := by
  rw [Int.fdiv_eq_ediv _ (by norm_num)]
  omega

theorem fdiv_window_pos {d : Int} (h : 60000 < d) : 0 < d.fdiv 60000 := by
  rw [Int.fdiv_eq_ediv _ (by norm_num)]
  omega

theorem routeMessage_preserves (env : Env) (s : SessionState) (m : TerminalMessage) :
    (routeMessage env s m).1.messageCount = s.messageCount ∧
    (routeMessage env s m).1.lastMinute = s.lastMinute := by
  cases m with
  | auth token =>
    simp only [routeMessage, handleAuth]
    rcases env.spawnResult with _ | pid <;> simp [PTYManager.spawn]
  | input d =>
    simp only [routeMessage, handleInput]
    by_cases h : s.authenticated = true <;> rcases hp : s.pty.ptyProcess with _ | pid <;>
      simp [h, hp]
  | resize c r =>
    simp only [routeMessage, handleResize]
    by_cases h : s.authenticated = true <;> rcases hp : s.pty.ptyProcess with _ | pid <;>
      simp [h, hp]
  | fileUpload f d sz =>
    simp only [routeMessage]
    by_cases h : s.authenticated = true <;> simp [h, handleFileUpload_fst]
  | fileDownload f => simp [routeMessage]
  | output d => simp [routeMessage]
  | error msg => simp [routeMessage]
  | ready st cw => simp [routeMessage]

theorem processAfterRate_preserves (env : Env) (s : SessionState) (f : RawFrame) :
    (processAfterRate env s f).1.messageCount = s.messageCount ∧
    (processAfterRate env s f).1.lastMinute = s.lastMinute := by
  simp only [processAfterRate]
  by_cases hsz : frameSize f > env.maxMessageSize
  · simp [hsz]
  · rcases hd : decodeFrame env f with e | m <;> simp [hsz, hd, routeMessage_preserves]

theorem handleMessage_inWindow (env : Env) (now : Int) (s : SessionState) (frame : RawFrame)
    (h0 : 0 ≤ now - s.lastMinute) (h1 : now - s.lastMinute < 60000) :
    handleMessage env now s frame =
      if s.messageCount + 1 > env.rateLimit then
        ({ s with messageCount := s.messageCount + 1 }, [.send (.error "Rate limit exceeded")])
      else processAfterRate env { s with messageCount := s.messageCount + 1 } frame := by
  simp only [handleMessage]
  rw [fdiv_window_zero h0 h1]
  simp

theorem handleMessage_reset (env : Env) (now : Int) (s : SessionState) (frame : RawFrame)
    (h : 60000 < now - s.lastMinute) :
    handleMessage env now s frame =
      if 1 > env.rateLimit then
        ({ s with messageCount := 1, lastMinute := now }, [.send (.error "Rate limit exceeded")])
      else processAfterRate env { s with messageCount := 1, lastMinute := now } frame := by
  simp only [handleMessage]
  rw [if_pos (fdiv_window_pos h)]

theorem runHandle_cons (env : Env) (s : SessionState) (now : Int) (f : RawFrame)
    (rest : List (Int × RawFrame)) :
    runHandle env s ((now, f) :: rest) =
      ((runHandle env (handleMessage env now s f).1 rest).1,
       (handleMessage env now s f).2 :: (runHandle env (handleMessage env now s f).1 rest).2) := by
  rfl

theorem runHandle_window (env : Env) (start : Int) (msgs : List (Int × RawFrame)) :
    ∀ (s : SessionState), s.lastMinute = start →
      (∀ p ∈ msgs, start ≤ p.1 ∧ p.1 - start < 60000) →
      (runHandle env s msgs).1.lastMinute = start ∧
      (runHandle env s msgs).1.messageCount = s.messageCount + msgs.length ∧
      (∀ i, i < msgs.length →
        (env.rateLimit < s.messageCount + i + 1 →
          ((runHandle env s msgs).2)[i]! = [.send (.error "Rate limit exceeded")]) ∧
        (s.messageCount + i + 1 ≤ env.rateLimit →
          ((runHandle env s msgs).2)[i]! =
            (processAfterRate env
              { (runHandle env s (msgs.take i)).1 with
                  messageCount := s.messageCount + i + 1 }
              (msgs[i]!).2).2)) := by
  induction msgs with
  | nil =>
    intro s hs _
    simp [runHandle, hs]
  | cons p rest ih =>
    intro s hs hw
    obtain ⟨now, f⟩ := p
    have hwin1 := hw (now, f) (by simp)
    have hstep := handleMessage_inWindow env now s f
      (by rw [hs]; omega) (by rw [hs]; exact hwin1.2)
    by_cases hc : s.messageCount + 1 > env.rateLimit
    · -- this message is rate-limited: the state keeps only the bumped counter
      rw [if_pos hc] at hstep
      have ihs := ih { s with messageCount := s.messageCount + 1 }
        (by simp [hs]) (fun q hq => hw q (by simp [hq]))
      rw [runHandle_cons, hstep]
      dsimp only
      refine ⟨ihs.1, ?_, ?_⟩
      · rw [ihs.2.1]
        dsimp only
        simp only [List.length_cons]
        omega
      · intro i hi
        cases i with
        | zero =>
          refine ⟨fun _ => by simp, fun hle => absurd hle (by omega)⟩
        | succ j =>
          have hj : j < rest.length := by simpa using hi
          have hrec := ihs.2.2 j hj
          constructor
          · intro hgt
            rw [List.getElem!_cons_succ]
            exact hrec.1 (by dsimp only; omega)
          · intro hle
            rw [List.getElem!_cons_succ]
            have heq := hrec.2 (by dsimp only; omega)
            rw [heq]
            rw [List.take_succ_cons, runHandle_cons, hstep]
            dsimp only
            rw [List.getElem!_cons_succ]
            have harith : s.messageCount + (j + 1) + 1 = s.messageCount + 1 + j + 1 := by omega
            rw [harith]
    · -- this message passes the rate gate
      rw [if_neg hc] at hstep
      have hpres := processAfterRate_preserves env { s with messageCount := s.messageCount + 1 } f
      have hlm' : (processAfterRate env { s with messageCount := s.messageCount + 1 } f).1.lastMinute
          = start := by
        rw [hpres.2]; exact hs
      have hmc' : (processAfterRate env { s with messageCount := s.messageCount + 1 } f).1.messageCount
          = s.messageCount + 1 := hpres.1
      have ihs := ih (processAfterRate env { s with messageCount := s.messageCount + 1 } f).1
        hlm' (fun q hq => hw q (by simp [hq]))
      rw [runHandle_cons, hstep]
      refine ⟨ihs.1, ?_, ?_⟩
      · rw [ihs.2.1, hmc']
        simp only [List.length_cons]
        omega
      · intro i hi
        cases i with
        | zero =>
          constructor
          · intro hgt
            exact absurd hgt (by omega)
          · intro _
            rw [List.getElem!_cons_zero, List.getElem!_cons_zero]
            simp [List.take_zero, runHandle]
        | succ j =>
          have hj : j < rest.length := by simpa using hi
          have hrec := ihs.2.2 j hj
          constructor
          · intro hgt
            rw [List.getElem!_cons_succ]
            exact hrec.1 (by rw [hmc']; omega)
          · intro hle
            rw [List.getElem!_cons_succ]
            have heq := hrec.2 (by rw [hmc']; omega)
            rw [heq]
            rw [List.take_succ_cons, runHandle_cons, hstep]
            dsimp only
            rw [List.getElem!_cons_succ, hmc']
            have harith : s.messageCount + (j + 1) + 1 = s.messageCount + 1 + j + 1 := by omega
            rw [harith]


/-! ## Claim theorems -/

/-- C1 counterexample (corrected claim): an authenticated FILE_UPLOAD whose
filename is `../../etc/passwd` is NOT rejected with an ERROR: the filename is
reduced to its basename, the file is written to `/app/passwd` inside the
working directory `/app`, and a success OUTPUT is sent. -/
theorem traversal_filename_written :
    routeMessage envDemo sessionAuthed (.fileUpload "../../etc/passwd" [] 0) =
      (sessionAuthed, [.fileWrite "/app/passwd",
        .send (.output "\r\n✅ Upload complete: ../../etc/passwd\r\n")]) := by decide

/-- C1 (corrected): for a normalized absolute working directory, every
FILE_UPLOAD leaves the session state unchanged, never closes or terminates the
transport, and every invocation of the file-write primitive targets either the
working directory itself or a direct child of it — no upload is ever written
outside the working directory.  (A filename with traversal components is
sanitized to its basename rather than rejected; an ERROR is sent only when
even the resolved basename escapes, e.g. a bare `..`.) -/
theorem upload_sandboxed (segs : List String) (env : Env) (filename : String)
    (s : SessionState) (fdata : List Nat)
    (hw : ∀ x ∈ segs, goodSeg x) (hcwd : env.cwd = pathOfSegs segs) :
    (handleFileUpload env s filename fdata).1 = s ∧
    (∀ e ∈ (handleFileUpload env s filename fdata).2, e ≠ .wsClose ∧ e ≠ .wsTerminate) ∧
    (∀ p, Effect.fileWrite p ∈ (handleFileUpload env s filename fdata).2 →
      p = pathOfSegs segs ∨ p = pathOfSegs (segs ++ [nodeBasename filename])) := by
  have hwC : ∀ seg ∈ segs.map String.data,
      seg ≠ [] ∧ seg ≠ ['.'] ∧ seg ≠ ['.', '.'] ∧ '/' ∉ seg := by
    intro seg hs
    obtain ⟨x, hx, rfl⟩ := List.mem_map.mp hs
    exact goodSeg_data (hw x hx)
  have hres : posixResolve env.cwd (nodeBasename filename) =
      String.mk (pathChars (normStep (segs.map String.data) (nodeBasename filename).data)) := by
    rw [hcwd]
    have hpr := posixResolve_basename (segs.map String.data) (nodeBasename filename).data hwC
      (nodeBasename_no_slash filename)
    rw [mkData] at hpr
    exact hpr
  have hcwd' : env.cwd = String.mk (pathChars (segs.map String.data)) := hcwd
  rw [handleFileUpload_eq]
  by_cases h1 : (nodeBasename filename).data = [] ∨ (nodeBasename filename).data = ['.']
  · -- resolves to the cwd itself
    have hn : normStep (segs.map String.data) (nodeBasename filename).data =
        segs.map String.data := by
      simp [normStep, h1]
    rw [hn] at hres
    rw [hres, hcwd', startsWith_self]
    by_cases hok : env.writeOk <;> simp [hok, pathOfSegs]
  · by_cases h2 : (nodeBasename filename).data = ['.', '.']
    · -- resolves to the parent directory
      have hn : normStep (segs.map String.data) (nodeBasename filename).data =
          (segs.map String.data).dropLast := by
        simp [normStep, h1, h2]
      rw [hn] at hres
      cases segs with
      | nil =>
        -- parent of the root is the root itself
        simp only [List.map_nil, List.dropLast_nil] at hres
        simp only [List.map_nil] at hcwd'
        rw [hres, hcwd', startsWith_self]
        by_cases hok : env.writeOk <;> simp [hok, pathOfSegs]
      | cons a rest =>
        -- rejected: the parent does not start with the cwd
        have hfalse : jsStartsWith (posixResolve env.cwd (nodeBasename filename)) env.cwd
            = false := by
          rw [hres, hcwd']
          exact notStartsWith_parent ((a :: rest).map String.data)
            (fun seg hs => (hwC seg hs).1) (by simp)
        rw [hfalse]
        simp
    · -- resolves to a direct child of the cwd
      have hn : normStep (segs.map String.data) (nodeBasename filename).data =
          segs.map String.data ++ [(nodeBasename filename).data] := by
        simp [normStep, h1, h2]
      rw [hn] at hres
      have htrue : jsStartsWith (posixResolve env.cwd (nodeBasename filename)) env.cwd
          = true := by
        rw [hres, hcwd']
        exact startsWith_child (segs.map String.data) (nodeBasename filename).data
      rw [htrue, hres]
      have hchild : String.mk (pathChars (segs.map String.data ++ [(nodeBasename filename).data]))
          = pathOfSegs (segs ++ [nodeBasename filename]) := by
        simp [pathOfSegs]
      by_cases hok : env.writeOk <;> simp [hok, hchild]

/-- C1 witness: the sandbox theorem applied to working directory `/app` and a
plain filename. -/
theorem upload_sandboxed_witness :
    (handleFileUpload envDemo sessionAuthed "notes.txt" []).1 = sessionAuthed :=
  (upload_sandboxed ["app"] envDemo "notes.txt" sessionAuthed []
    (by
      intro x hx
      simp only [List.mem_singleton] at hx
      subst hx
      exact ⟨by decide, by decide, by decide, by decide⟩)
    (by decide)).1

/-- C2 (code bug): evaluation at the failing input.  A second AUTH message on
the same session spawns a second pty process (two `spawned` effects), the
session's handle is overwritten with the new pid, and no kill is ever issued
for the first process — contradicting the invariant that a session spawns
exactly one process. -/
theorem second_auth_spawns_again :
    (routeMessage envDemo sessionFresh (.auth "tok")).1.pty.ptyProcess = some 1 ∧
    ((routeMessage { envDemo with spawnResult := some 2 }
        (routeMessage envDemo sessionFresh (.auth "tok")).1 (.auth "tok")).1.pty.ptyProcess
      = some 2) ∧
    ((routeMessage envDemo sessionFresh (.auth "tok")).2 ++
     (routeMessage { envDemo with spawnResult := some 2 }
        (routeMessage envDemo sessionFresh (.auth "tok")).1 (.auth "tok")).2).filter
      (fun e => match e with | .spawned _ => true | _ => false) = [.spawned 1, .spawned 2] ∧
    ((routeMessage envDemo sessionFresh (.auth "tok")).2 ++
     (routeMessage { envDemo with spawnResult := some 2 }
        (routeMessage envDemo sessionFresh (.auth "tok")).1 (.auth "tok")).2).filter
      (fun e => match e with | .killSignal _ => true | _ => false) = [] := by
  decide

/-- C3 counterexample (corrected claim): a binary frame whose 4-byte header
length field (100) exceeds the frame's total size (20) is NOT rejected when
the remaining bytes happen to parse as a JSON header: `subarray` clamps the
header slice to the frame end, the FILE_UPLOAD is constructed with empty data
and routed, and the upload succeeds — no ERROR is sent. -/
theorem oversized_header_accepted :
    readUInt32BE frameOversized = 100 ∧
    frameOversized.length = 20 ∧
    decodeBinaryFrame jsonParseFilenameHeader frameOversized = .ok ⟨"a", [], 0⟩ ∧
    (handleMessage envDemo 0 sessionAuthed (.binary frameOversized)).2 =
      [.fileWrite "/app/a", .send (.output "\r\n✅ Upload complete: a\r\n")] := by
  refine ⟨by decide, by decide, by rfl, by decide⟩

/-- C3 (corrected): decoding a binary frame never crashes (the decoder is
total).  A frame shorter than 4 bytes, or one whose header slice — truncated
at the frame end when the stated `headerLength` overruns it — fails to parse,
is rejected with the protocol ERROR; if the truncated slice still parses, a
FILE_UPLOAD is produced, and when `headerLength` reaches past the frame its
file data is empty. -/
theorem decodeBinaryFrame_characterization (parse : String → Option String) (bytes : List Nat) :
    (bytes.length < 4 → decodeBinaryFrame parse bytes = .error "Invalid message protocol") ∧
    (4 ≤ bytes.length →
      parse (asciiDecode ((bytes.drop 4).take (readUInt32BE bytes))) = none →
      decodeBinaryFrame parse bytes = .error "Invalid message protocol") ∧
    (∀ fn, 4 ≤ bytes.length →
      parse (asciiDecode ((bytes.drop 4).take (readUInt32BE bytes))) = some fn →
      decodeBinaryFrame parse bytes =
        .ok ⟨fn, bytes.drop (4 + readUInt32BE bytes),
          (bytes.drop (4 + readUInt32BE bytes)).length⟩) ∧
    (bytes.length ≤ 4 + readUInt32BE bytes → bytes.drop (4 + readUInt32BE bytes) = []) := by
  refine ⟨?_, ?_, ?_, ?_⟩
  · intro h
    simp [decodeBinaryFrame, h]
  · intro h hp
    simp only [decodeBinaryFrame]
    rw [if_neg (by omega), hp]
  · intro fn h hp
    simp only [decodeBinaryFrame]
    rw [if_neg (by omega), hp]
  · intro h
    exact List.drop_eq_nil_of_le h

/-- C4 counterexample (corrected claim): a single shell write of exactly
8192 bytes into an empty buffer is NOT flushed immediately (the code's
condition is strictly greater than 8192): no OUTPUT is sent and a delayed
flush is merely scheduled. -/
theorem coalescer_boundary_write :
    coOnData coInit (String.mk (List.replicate 8192 'a')) =
      { outputBuffer := String.mk (List.replicate 8192 'a'), flushScheduled := true,
        sent := [] } := by
  have hc : ¬ ((coInit.outputBuffer ++ String.mk (List.replicate 8192 'a')).length > 8192) := by
    rw [show coInit.outputBuffer ++ String.mk (List.replicate 8192 'a') =
        String.mk (List.replicate 8192 'a') from str_nil_append _]
    rw [show (String.mk (List.replicate 8192 'a')).length = 8192 from by
      show (List.replicate 8192 'a').length = 8192
      rw [List.length_replicate]]
    omega
  simp only [coOnData]
  rw [if_neg hc]
  simp [coInit, str_nil_append]

/-- C4 (corrected): a burst of writes totaling under 8 KiB with a nonempty
concatenation emits nothing until the 5 ms timer fires, and then exactly one
OUTPUT carrying the concatenation in original order; a single write of MORE
than 8192 bytes (the code flushes only above 8192, not at 8192) flushes
immediately from any state: one OUTPUT with the full buffer, the pending
timer cancelled and the buffer cleared. -/
theorem coalescer_spec (ss : List String) (st : CoState) (w : String)
    (hne : ss ≠ []) (hsum : (ss.map String.length).sum < 8192) (hjoin : concatAll ss ≠ "") :
    (runCo coInit (ss.map CoEvent.data)).sent = [] ∧
    runCo coInit (ss.map CoEvent.data ++ [CoEvent.timer]) =
      { outputBuffer := "", flushScheduled := false, sent := [concatAll ss] } ∧
    (8192 < w.length →
      coOnData st w =
        { outputBuffer := "", flushScheduled := false,
          sent := st.sent ++ [st.outputBuffer ++ w] }) := by
  obtain ⟨s, rest, rfl⟩ : ∃ s rest, ss = s :: rest := by
    cases ss with
    | nil => cases hne rfl
    | cons s rest => exact ⟨s, rest, rfl⟩
  have hc1 : ¬ ((coInit.outputBuffer ++ s).length > 8192) := by
    rw [show coInit.outputBuffer ++ s = s from str_nil_append s]
    simp only [List.map_cons, List.sum_cons] at hsum
    omega
  have hfirst : coOnData coInit s = { outputBuffer := s, flushScheduled := true, sent := [] } := by
    simp only [coOnData]
    rw [if_neg hc1]
    simp [coInit, str_nil_append]
  have hburst : runCo coInit ((s :: rest).map CoEvent.data) =
      { outputBuffer := concatAll (s :: rest), flushScheduled := true, sent := [] } := by
    simp only [List.map_cons, runCo, hfirst]
    rw [runCo_burst rest { outputBuffer := s, flushScheduled := true, sent := [] } rfl (by
      simp only [List.map_cons, List.sum_cons] at hsum
      simp only
      omega)]
    rw [concatAll_cons]
  refine ⟨by rw [hburst], ?_, ?_⟩
  · rw [runCo_append, hburst]
    simp only [runCo, coTimerFire, coFlush]
    have hpos : (concatAll (s :: rest)).length > 0 := by
      rcases Nat.eq_zero_or_pos (concatAll (s :: rest)).length with hz | hp
      · exact absurd (String.ext (List.length_eq_zero.mp hz)) hjoin
      · exact hp
    simp [hpos]
  · intro hw
    have hc : (st.outputBuffer ++ w).length > 8192 := by
      simp only [String.length_append]
      omega
    have hp : (st.outputBuffer ++ w).length > 0 := by
      omega
    simp only [coOnData]
    rw [if_pos hc]
    simp only [coFlush]
    rw [if_pos hp]

/-- C4 witness: the coalescer theorem applied to the two-write burst
`["ls", "a.txt"]`. -/
theorem coalescer_spec_witness :
    (runCo coInit (["ls", "a.txt"].map CoEvent.data)).sent = [] :=
  (coalescer_spec ["ls", "a.txt"] coInit "x" (by decide) (by decide) (by decide)).1

/-- C5 counterexample (corrected claim): a token whose expiry field `abc`
does not parse as a number is ACCEPTED when the signature matches, because
`parseInt` yields NaN and `Date.now() > NaN` is false — the claim requires
any parse error to yield `false`. -/
theorem validateToken_nan_expiry :
    validateToken (fun _ => "deadbeef") 1000000 "1:abc:deadbeef" = true := by decide

/-- C5 (corrected): `validateToken` is total (never throws) and returns true
exactly when the token splits on `:` into three fields, the third equals the
recomputed signature over the first two joined by `:`, and the comparison
`now > parseInt(expiresAt)` is false — which holds both when `now` is at most
the parsed expiry and when the expiry fails to parse (NaN), the latter
diverging from the claim's "parse errors are invalid". -/
theorem validateToken_characterization (hmac : String → String) (now : Int) (token : String) :
    validateToken hmac now token = true ↔
      ∃ t e s, jsSplit ':' token = [t, e, s] ∧ s = hmac (t ++ ":" ++ e) ∧
        jsGtNaN now (jsParseInt10 e) = false := by
  unfold validateToken
  rcases hsplit : jsSplit ':' token with _ | ⟨t, _ | ⟨e, _ | ⟨s, _ | ⟨x, xs⟩⟩⟩⟩ <;>
    simp_all <;> aesop

/-- C6 (confirmed): a session that is not authenticated ignores INPUT, RESIZE
and FILE_UPLOAD completely — the state is unchanged and no effect (no pty
write, no file write, no response of any kind) is produced. -/
theorem unauthenticated_ignores (env : Env) (s : SessionState)
    (h : s.authenticated = false) (d : String) (c r : Nat)
    (f : String) (fdata : List Nat) (sz : Nat) :
    routeMessage env s (.input d) = (s, []) ∧
    routeMessage env s (.resize c r) = (s, []) ∧
    routeMessage env s (.fileUpload f fdata sz) = (s, []) := by
  simp [routeMessage, h]

/-- C6 witness: the routing theorem applied to a fresh unauthenticated
session and an INPUT message. -/
theorem unauthenticated_ignores_witness :
    routeMessage envDemo sessionFresh (.input "ls\n") = (sessionFresh, []) :=
  (unauthenticated_ignores envDemo sessionFresh rfl "ls\n" 1 1 "f" [] 0).1

/-- C7 (confirmed): starting a window at `start` with a zero counter, each of
the first `rateLimit` messages arriving inside the window is passed on to the
size check, decoder and router with the counter bumped, every later message
in the window is dropped with exactly one rate-limit ERROR (the session state
is kept and the frame is never decoded), and a message arriving more than one
minute after `start` restarts the window at its own time with the counter
reset (so it is accepted whenever `rateLimit ≥ 1`). -/
theorem rate_limiting (env : Env) (start : Int) (msgs : List (Int × RawFrame)) (s0 : SessionState)
    (hmc : s0.messageCount = 0) (hlm : s0.lastMinute = start)
    (hwin : ∀ p ∈ msgs, start ≤ p.1 ∧ p.1 - start < 60000) :
    ((runHandle env s0 msgs).1.lastMinute = start ∧
     (runHandle env s0 msgs).1.messageCount = msgs.length) ∧
    (∀ i, i < msgs.length → env.rateLimit < i + 1 →
      ((runHandle env s0 msgs).2)[i]! = [.send (.error "Rate limit exceeded")]) ∧
    (∀ i, i < msgs.length → i + 1 ≤ env.rateLimit →
      ((runHandle env s0 msgs).2)[i]! =
        (processAfterRate env
          { (runHandle env s0 (msgs.take i)).1 with messageCount := i + 1 }
          (msgs[i]!).2).2) ∧
    (∀ (now : Int) (frame : RawFrame) (s : SessionState),
      s.lastMinute = start → 60000 < now - start → 1 ≤ env.rateLimit →
      handleMessage env now s frame =
        processAfterRate env { s with messageCount := 1, lastMinute := now } frame) := by
  have main := runHandle_window env start msgs s0 hlm hwin
  refine ⟨⟨main.1, by rw [main.2.1, hmc]; simp⟩, ?_, ?_, ?_⟩
  · intro i hi hgt
    exact (main.2.2 i hi).1 (by rw [hmc]; omega)
  · intro i hi hle
    have hres := (main.2.2 i hi).2 (by rw [hmc]; omega)
    rw [hmc] at hres
    have h0 : (0 : Nat) + i + 1 = i + 1 := by omega
    rw [h0] at hres
    exact hres
  · intro now frame s hs hgt hrl
    rw [handleMessage_reset env now s frame (by rw [hs]; exact hgt)]
    rw [if_neg (by omega)]

/-- C7 witness: with `rateLimit = 1`, the second of two messages in one
window is dropped with the rate-limit ERROR. -/
theorem rate_limiting_witness :
    ((runHandle { envDemo with rateLimit := 1 } sessionFresh
        [(0, .text "a"), (1, .text "a")]).2)[1]! =
      [.send (.error "Rate limit exceeded")] :=
  (rate_limiting { envDemo with rateLimit := 1 } 0 [(0, .text "a"), (1, .text "a")]
    sessionFresh rfl rfl (by decide)).2.1 1 (by decide) (by decide)

/-- C8 (confirmed): `PTYManager.kill` on a handle with no process is a no-op
(no state change, no effect); after a successful kill the process reference
is cleared, `isAlive` is false, and any further kill is a no-op. -/
theorem kill_idempotent (m : PTYManager) (killOk : Bool) :
    (m.ptyProcess = none → PTYManager.kill killOk m = (m, [])) ∧
    (PTYManager.kill true m).1.ptyProcess = none ∧
    (PTYManager.kill true m).1.isAlive = false ∧
    PTYManager.kill killOk (PTYManager.kill true m).1 = ((PTYManager.kill true m).1, []) := by
  rcases m with ⟨_ | pid⟩ <;> simp [PTYManager.kill, PTYManager.isAlive]

/-- C9 (confirmed): on a supervisor tick a session whose liveness flag is
false is terminated — firing the close path, which invokes the pty kill and
removes the session — while a live session has its flag cleared and is sent a
ping probe; a pong between ticks restores the flag; and a session that never
acknowledges is gone after two ticks with its pty kill invoked exactly once
and the process signalled exactly once. -/
theorem heartbeat_supervision (env : Env) (s : SessionState) (pid : Nat) :
    (s.isAlive = false →
      heartbeatTick env (some s) =
        (none, .wsTerminate :: .ptyKillCall :: (s.pty.kill env.killOk).2)) ∧
    (s.isAlive = true →
      heartbeatTick env (some s) = (some { s with isAlive := false }, [.ping])) ∧
    pongStep (some s) = (some { s with isAlive := true }, []) ∧
    (s.isAlive = true → s.pty.ptyProcess = some pid → env.killOk = true →
      runHb env (some s) [.tick, .tick] =
        (none, [.ping, .wsTerminate, .ptyKillCall, .killSignal pid])) := by
  refine ⟨?_, ?_, rfl, ?_⟩
  · intro h
    simp [heartbeatTick, handleClose, h]
  · intro h
    simp [heartbeatTick, h]
  · intro h hp hk
    simp [runHb, heartbeatTick, handleClose, h, hp, hk, PTYManager.kill]

/-- C10 (confirmed, implicit): routing an AUTH message never inspects the
carried token — two AUTH messages differing only in the token produce
identical state transitions and effects, the session always ends up
authenticated, and whenever the spawn succeeds the session's handle holds
the fresh pid and the spawn effect is emitted, token notwithstanding. -/
theorem auth_ignores_token (env : Env) (s : SessionState) (t1 t2 : String) :
    routeMessage env s (.auth t1) = routeMessage env s (.auth t2) ∧
    (routeMessage env s (.auth t1)).1.authenticated = true ∧
    (∀ pid, env.spawnResult = some pid →
      (routeMessage env s (.auth t1)).1.pty.ptyProcess = some pid ∧
      Effect.spawned pid ∈ (routeMessage env s (.auth t1)).2) := by
  refine ⟨rfl, ?_, ?_⟩
  all_goals
    simp only [routeMessage, handleAuth]
    rcases env.spawnResult with _ | pid <;> simp [PTYManager.spawn]

end WebTerm
